import Mathlib

/-!
Verification of the job-queue engine specified for the
node-express-bullmq repository.

The repository wires a third-party queue library (BullMQ) to an HTTP
server; its own code defines job payloads, enqueue helpers and worker
callbacks.  The specification describes the queue engine those helpers
rely on (job store, scheduler, retry policy, dispatcher).  The engine
itself is not part of the repository sources, so it is modelled here
from the specification; the enqueue helpers (addEmailJob,
scheduleEmailAt) and the basic worker processor (processEmailJob) are
translated directly from the repository code.
-/

/-- Job lifecycle states, from the specification state machine. -/
inductive JState where
  | waiting
  | delayed
  | active
  | completed
  | failed
  | stalled
deriving DecidableEq, Repr

/-- Backoff kind: fixed or exponential. -/
inductive BackoffKind where
  | fixed
  | exponential
deriving DecidableEq, Repr

/-- Backoff policy: a kind and a base delay in milliseconds. -/
structure BackoffPolicy where
  kind : BackoffKind
  baseDelay : Int
deriving DecidableEq, Repr

/-- Modelled from the spec: the Job Record, the durable unit of work of the
queue store.  The cron recurrence rule is abstracted to a fixed period in
milliseconds (the recurrence shape exercised by the repository and by the
testable properties), stored in repeatEvery. -/
structure JobRecord where
  id : Nat
  type : String
  payload : String
  priority : Int
  attemptsMade : Nat
  maxAttempts : Nat
  backoff : BackoffPolicy
  readyAt : Int
  state : JState
  stallCount : Nat
  owner : Option Nat
  processedAt : Option Int
  finishedAt : Option Int
  lastBeat : Int
  repeatEvery : Option Int
deriving DecidableEq, Repr

/-- Modelled from the spec: the queue store plus the current clock, shared
by every dispatcher instance.  now is the current time in milliseconds. -/
structure Engine where
  jobs : List JobRecord
  nextId : Nat
  now : Int
deriving DecidableEq, Repr

/-- Submission options accepted by the submit operation. -/
structure SubmitOptions where
  delay : Int
  attempts : Nat
  backoff : BackoffPolicy
  priority : Int
  repeatEvery : Option Int
deriving DecidableEq, Repr

/-- Worker settings relevant to stall detection. -/
structure Settings where
  stalledInterval : Int
  maxStalledCount : Nat
deriving DecidableEq, Repr

/-- Synchronous submission errors. -/
inductive SubmitError where
  | validationError
deriving DecidableEq, Repr

/-- Modelled from the spec: the retry policy as a pure function from the
number of attempts made and the backoff policy to the next delay.
Exponential backoff is baseDelay * 2 ^ attemptsMade. -/
def nextAttempt (attemptsMade : Nat) (p : BackoffPolicy) : Int :=
  match p.kind with
  | BackoffKind.fixed => p.baseDelay
  | BackoffKind.exponential => p.baseDelay * 2 ^ attemptsMade

/-- The backoff policy the repository configures on the email queue:
exponential with a 2000 ms base delay. -/
def expPolicy2000 : BackoffPolicy :=
  { kind := BackoffKind.exponential, baseDelay := 2000 }

/-- Modelled from the spec: the record created by a valid submission.
State is delayed when a positive delay is requested, waiting otherwise;
readyAt is creation time plus delay. -/
def mkJob (e : Engine) (ty pl : String) (o : SubmitOptions) : JobRecord :=
  { id := e.nextId
    type := ty
    payload := pl
    priority := o.priority
    attemptsMade := 0
    maxAttempts := o.attempts
    backoff := o.backoff
    readyAt := e.now + o.delay
    state := if 0 < o.delay then JState.delayed else JState.waiting
    stallCount := 0
    owner := none
    processedAt := none
    finishedAt := none
    lastBeat := e.now
    repeatEvery := o.repeatEvery }

/-- Modelled from the spec: submit validates its options synchronously and
fails with a ValidationError when delay is negative or maxAttempts is below
one; otherwise it appends a fresh record to the store. -/
def submit (e : Engine) (ty pl : String) (o : SubmitOptions) :
    Except SubmitError (Engine × JobRecord) :=
  if o.delay < 0 ∨ o.attempts < 1 then
    Except.error SubmitError.validationError
  else
    let j := mkJob e ty pl o
    Except.ok ({ jobs := e.jobs ++ [j], nextId := e.nextId + 1, now := e.now }, j)

/-- State-passing view of submit: on a validation error the store is
returned unchanged and no record is produced. -/
def trySubmit (e : Engine) (ty pl : String) (o : SubmitOptions) :
    Engine × Option JobRecord :=
  match submit e ty pl o with
  | Except.error _ => (e, none)
  | Except.ok (e', j) => (e', some j)

/-- Modelled from the spec: the dequeue order of the store listing —
priority descending, then readyAt ascending, then id ascending. -/
def JobOrder (a b : JobRecord) : Prop :=
  b.priority < a.priority ∨
    (a.priority = b.priority ∧
      (a.readyAt < b.readyAt ∨ (a.readyAt = b.readyAt ∧ a.id ≤ b.id)))

instance : DecidableRel JobOrder := fun a b => by
  unfold JobOrder
  exact inferInstance

instance : IsTotal JobRecord JobOrder :=
  ⟨by intro a b; unfold JobOrder; omega⟩

instance : IsTrans JobRecord JobOrder :=
  ⟨by intro a b c hab hbc; unfold JobOrder at hab hbc ⊢; omega⟩

/-- Modelled from the spec: listByState returns the records in a given
state ordered by priority desc, readyAt asc, id asc. -/
def listByState (e : Engine) (s : JState) : List JobRecord :=
  List.insertionSort JobOrder (e.jobs.filter (fun j => decide (j.state = s)))

/-- A job is claimable: waiting and ready at the current time. -/
def readyWaiting (now : Int) (j : JobRecord) : Bool :=
  decide (j.state = JState.waiting) && decide (j.readyAt ≤ now)

/-- Update the job with the given id by f, leaving every other record
untouched.  This is the shape of every per-job store mutation. -/
def updF (i : Nat) (f : JobRecord → JobRecord) (x : JobRecord) : JobRecord :=
  if x.id = i then f x else x

/-- Apply a per-job mutation to the store. -/
def updateJob (e : Engine) (i : Nat) (f : JobRecord → JobRecord) : Engine :=
  { e with jobs := e.jobs.map (updF i f) }

/-- Scheduler promotion: a delayed job whose readyAt has passed becomes
waiting; any other record is untouched. -/
def promoteF (now : Int) (j : JobRecord) : JobRecord :=
  if j.state = JState.delayed ∧ j.readyAt ≤ now then
    { j with state := JState.waiting }
  else j

/-- The atomic test-and-set at the heart of the dispatcher: a waiting,
ready job becomes active with an owner token and a processedAt stamp; any
other record is untouched, so a job that is already active can never be
claimed again. -/
def claimF (now : Int) (tok : Nat) (j : JobRecord) : JobRecord :=
  if j.state = JState.waiting ∧ j.readyAt ≤ now then
    { j with state := JState.active, owner := some tok,
             processedAt := some now, lastBeat := now }
  else j

/-- Outcome of a handler failure: when the failure is retryable and
attempts remain the job is re-delayed with a readyAt computed by the retry
policy; otherwise it becomes failed.  attemptsMade counts the attempt that
just failed. -/
def failF (now : Int) (retryable : Bool) (j : JobRecord) : JobRecord :=
  if j.state = JState.active then
    if retryable = true ∧ j.attemptsMade + 1 < j.maxAttempts then
      { j with state := JState.delayed, attemptsMade := j.attemptsMade + 1,
               readyAt := now + nextAttempt j.attemptsMade j.backoff,
               owner := none }
    else
      { j with state := JState.failed, attemptsMade := j.attemptsMade + 1,
               finishedAt := some now, owner := none }
  else j

/-- Successful completion of an active job. -/
def completeF (now : Int) (j : JobRecord) : JobRecord :=
  if j.state = JState.active then
    { j with state := JState.completed, finishedAt := some now, owner := none }
  else j

/-- Stall detection: an active job whose last liveness signal is at least
stalledInterval old is reclassified; its stall count increments, and when
the count reaches maxStalledCount the job is forced to failed instead of
stalled. -/
def stallF (s : Settings) (now : Int) (j : JobRecord) : JobRecord :=
  if j.state = JState.active ∧ j.lastBeat + s.stalledInterval ≤ now then
    if s.maxStalledCount ≤ j.stallCount + 1 then
      { j with state := JState.failed, stallCount := j.stallCount + 1,
               owner := none, finishedAt := some now }
    else
      { j with state := JState.stalled, stallCount := j.stallCount + 1,
               owner := none }
  else j

/-- A stalled job returns to waiting, eligible for re-claim. -/
def requeueF (j : JobRecord) : JobRecord :=
  if j.state = JState.stalled then { j with state := JState.waiting } else j

/-- A liveness signal from the worker owning an active job. -/
def heartbeatF (now : Int) (j : JobRecord) : JobRecord :=
  if j.state = JState.active then { j with lastBeat := now } else j

/-- Producer retry: a failed job returns to waiting with its attempt
accounting reset. -/
def retryF (j : JobRecord) : JobRecord :=
  if j.state = JState.failed then
    { j with state := JState.waiting, attemptsMade := 0 }
  else j

/-- Modelled from the spec: the producer retry operation on the store. -/
def retry (e : Engine) (i : Nat) : Engine :=
  updateJob e i retryF

/-- Look a job up by id. -/
def getById (e : Engine) (i : Nat) : Option JobRecord :=
  e.jobs.find? (fun j => decide (j.id = i))

/-- Modelled from the spec: the dispatcher claim step.  It atomically
selects the best claimable job (priority desc, readyAt asc, id asc) and
applies the test-and-set, returning the new store and the claimed record,
or nothing when no job is claimable. -/
def claimNext (e : Engine) (tok : Nat) : Option (Engine × JobRecord) :=
  match List.insertionSort JobOrder (e.jobs.filter (readyWaiting e.now)) with
  | [] => none
  | j :: _ => some (updateJob e j.id (claimF e.now tok), claimF e.now tok j)

/-- The number of currently claimable jobs. -/
def countRW (e : Engine) : Nat :=
  (e.jobs.filter (readyWaiting e.now)).length

/-- The store has no two records with the same id. -/
def IdsNodup (e : Engine) : Prop :=
  (e.jobs.map JobRecord.id).Nodup

instance (e : Engine) : Decidable (IdsNodup e) := by
  unfold IdsNodup
  exact List.nodupDecidable _

/-- No record with the given id is claimable in the store. -/
def NotRW (e : Engine) (i : Nat) : Prop :=
  ∀ x ∈ e.jobs, x.id = i → readyWaiting e.now x = false

/-- Run a schedule of claim attempts against one shared store.  Each entry
of the schedule is the token of the dispatcher instance acting at that
step (any interleaving of any number of instances); the result is the
final store and the ids claimed, in order. -/
def runClaims (e : Engine) : List Nat → Engine × List Nat
  | [] => (e, [])
  | tok :: rest =>
    match claimNext e tok with
    | none => runClaims e rest
    | some (e', j) =>
      let p := runClaims e' rest
      (p.1, j.id :: p.2)

/-- A fully ready waiting job, as used by the claim-atomicity scenario. -/
def mkWaitingJob (i : Nat) : JobRecord :=
  { id := i
    type := "sendEmail"
    payload := ""
    priority := 1
    attemptsMade := 0
    maxAttempts := 3
    backoff := expPolicy2000
    readyAt := 0
    state := JState.waiting
    stallCount := 0
    owner := none
    processedAt := none
    finishedAt := none
    lastBeat := 0
    repeatEvery := none }

/-- A store of n immediately claimable jobs with distinct ids. -/
def mkEngine (n : Nat) : Engine :=
  { jobs := (List.range n).map mkWaitingJob, nextId := n, now := 0 }

/-- The predicate locating the active job a worker is finishing. -/
def activeWith (i : Nat) (j : JobRecord) : Bool :=
  decide (j.id = i) && decide (j.state = JState.active)

/-- Modelled from the spec: the sibling Job Record spawned when an
occurrence of a recurring job completes.  It carries a fresh id, the
parent's type, payload and options, zeroed progress accounting, and a
readyAt one period after the completion time. -/
def sibling (parent : JobRecord) (per : Int) (now : Int) (fresh : Nat) : JobRecord :=
  { parent with
      id := fresh
      state := JState.delayed
      readyAt := now + per
      attemptsMade := 0
      stallCount := 0
      owner := none
      processedAt := none
      finishedAt := none
      lastBeat := now }

/-- Modelled from the spec: completion of the active job with the given
id.  The completed occurrence keeps its own record; when it carries a
recurrence rule, exactly one sibling record with a fresh id is appended
for the next occurrence. -/
def completeE (e : Engine) (i : Nat) : Engine :=
  match e.jobs.find? (activeWith i) with
  | none => e
  | some j =>
    let e1 := updateJob e i (completeF e.now)
    match j.repeatEvery with
    | none => e1
    | some per =>
      { jobs := e1.jobs ++ [sibling j per e.now e.nextId]
        nextId := e.nextId + 1
        now := e.now }

/-- The dispatcher claim step as a store transformation: a no-op when no
job is claimable. -/
def claimE (e : Engine) (tok : Nat) : Engine :=
  match claimNext e tok with
  | none => e
  | some (e', _) => e'

/-- Time passing. -/
def tickE (e : Engine) (d : Int) : Engine :=
  { e with now := e.now + d }

/-- Modelled from the spec: the automatic lifecycle of the store — every
mutation performed by producers submitting, by the scheduler, and by the
dispatcher and its workers.  The explicit producer operation retry
(section 6 of the spec) is a separate administrative call and is not part
of this automatic lifecycle. -/
inductive Step (s : Settings) : Engine → Engine → Prop where
  | tick (e : Engine) (d : Int) : Step s e (tickE e d)
  | submit (e : Engine) (ty pl : String) (o : SubmitOptions) :
      Step s e (trySubmit e ty pl o).1
  | promote (e : Engine) (i : Nat) : Step s e (updateJob e i (promoteF e.now))
  | claim (e : Engine) (tok : Nat) : Step s e (claimE e tok)
  | complete (e : Engine) (i : Nat) : Step s e (completeE e i)
  | fail (e : Engine) (i : Nat) (r : Bool) :
      Step s e (updateJob e i (failF e.now r))
  | heartbeat (e : Engine) (i : Nat) : Step s e (updateJob e i (heartbeatF e.now))
  | stall (e : Engine) (i : Nat) : Step s e (updateJob e i (stallF s e.now))
  | requeue (e : Engine) (i : Nat) : Step s e (updateJob e i requeueF)

/-- Per-job invariant behind the attempt accounting: attemptsMade never
exceeds maxAttempts, and a job that is not failed still has an attempt
left. -/
def AttemptsInv (j : JobRecord) : Prop :=
  j.attemptsMade ≤ j.maxAttempts ∧
    (j.state ≠ JState.failed → j.attemptsMade < j.maxAttempts)

instance (j : JobRecord) : Decidable (AttemptsInv j) := by
  unfold AttemptsInv
  exact inferInstance

/-- The store-wide attempt invariant. -/
def EngineInv (e : Engine) : Prop :=
  ∀ j ∈ e.jobs, AttemptsInv j

instance (e : Engine) : Decidable (EngineInv e) := by
  unfold EngineInv
  exact List.decidableBAll _ _

/- Deterministic simulation of a recurring job: each simulated second the
scheduler promotes due jobs, the dispatcher claims the best one, the
worker completes it instantly (spawning the next occurrence), and one
second passes. -/

/-- One simulated second of the engine running a recurring job. -/
def simSecond (e : Engine) : Engine :=
  let ep : Engine := { e with jobs := e.jobs.map (promoteF e.now) }
  match claimNext ep 0 with
  | none => tickE ep 1000
  | some (e', j) => tickE (completeE e' j.id) 1000

/-- The initial store: one job repeating every 1000 ms, submitted with no
delay at time 0. -/
def simInit : Engine :=
  (trySubmit { jobs := [], nextId := 0, now := 0 } "sendEmail" "recurring@example.com"
    { delay := 0, attempts := 3, backoff := expPolicy2000, priority := 1,
      repeatEvery := some 1000 }).1

/-- Run the recurring-job simulation for n seconds. -/
def simRun : Nat → Engine
  | 0 => simInit
  | n + 1 => simSecond (simRun n)

/-- The number of completed occurrence records in the store. -/
def countCompleted (e : Engine) : Nat :=
  (e.jobs.filter (fun j => decide (j.state = JState.completed))).length

/- Direct translations of the repository code. -/

/-- A job addition as produced by emailQueue.add in jobs/emailJob.js:
the job name, payload fields and the options object. -/
structure EmailJobAdd where
  name : String
  toAddr : String
  urgent : Bool
  delay : Int
  attempts : Nat
  backoffKind : BackoffKind
  backoffDelay : Int
  priority : Int
  removeOnComplete : Nat
  removeOnFail : Nat
  repeatCron : Option String
deriving DecidableEq, Repr

/-- emailQueue.add appends the job to the queue. -/
def emailQueueAdd (q : List EmailJobAdd) (j : EmailJobAdd) : List EmailJobAdd :=
  q ++ [j]

/-- addEmailJob from src/jobs/emailJob.js: enqueues a sendEmail job with
the given delay, 3 attempts, exponential backoff with base 2000 ms,
priority 1, removeOnComplete 10, removeOnFail 5 and an optional repeat
rule. -/
def addEmailJob (q : List EmailJobAdd) (toAddr : String) (delay : Int)
    (repeatCron : Option String) : List EmailJobAdd × EmailJobAdd :=
  let j : EmailJobAdd :=
    { name := "sendEmail"
      toAddr := toAddr
      urgent := false
      delay := delay
      attempts := 3
      backoffKind := BackoffKind.exponential
      backoffDelay := 2000
      priority := 1
      removeOnComplete := 10
      removeOnFail := 5
      repeatCron := repeatCron }
  (emailQueueAdd q j, j)

/-- scheduleEmailAt from src/jobs/emailJob.js: computes
delay = scheduleTime - now, throws when the delay is not positive (the
queue is untouched in that case), and otherwise enqueues through
addEmailJob with the computed delay. -/
def scheduleEmailAt (q : List EmailJobAdd) (toAddr : String)
    (now scheduleTime : Int) : List EmailJobAdd × Except String EmailJobAdd :=
  let delay := scheduleTime - now
  if delay ≤ 0 then
    (q, Except.error "Schedule time must be in the future")
  else
    let r := addEmailJob q toAddr delay none
    (r.1, Except.ok r.2)

/-- The job object seen by the basic worker processor. -/
structure BasicJob where
  name : String
  toAddr : String
  urgent : Bool
  attemptsMade : Nat
  attemptsOpt : Nat
deriving DecidableEq, Repr

/-- Outcome of one processor invocation: either a thrown error or a
returned result object. -/
inductive ProcOutcome where
  | thrown (msg : String)
  | ok (log sentAt recipient messageId : String)
deriving DecidableEq, Repr

/-- processEmailJob from src/workers/emailWorker.js.  randomFailure is the
outcome of the simulated 20 percent failure draw; sentAt and messageId
stand for the wall-clock and random values the code embeds in its result.
The switch on the job name only selects a log line — both the sendEmail
case and the default case fall through to the same success result. -/
def processEmailJob (j : BasicJob) (randomFailure : Bool)
    (sentAt messageId : String) : ProcOutcome :=
  if randomFailure then
    ProcOutcome.thrown "Simulated email service failure"
  else if j.name = "sendEmail" then
    ProcOutcome.ok ("Email sent successfully to " ++ j.toAddr) sentAt j.toAddr messageId
  else
    ProcOutcome.ok ("Unknown job type processed: " ++ j.name) sentAt j.toAddr messageId

/- Helper lemmas about claiming. -/

/-- readyWaiting decides exactly the claim guard. -/
theorem readyWaiting_iff (now : Int) (j : JobRecord) :
    readyWaiting now j = true ↔ j.state = JState.waiting ∧ j.readyAt ≤ now := by
  simp [readyWaiting]

/-- The test-and-set preserves the job id. -/
theorem claimF_id (now : Int) (tok : Nat) (j : JobRecord) :
    (claimF now tok j).id = j.id := by
  unfold claimF
  split <;> rfl

/-- After the test-and-set a record is never claimable: a claimable record
became active, and a non-claimable record is unchanged. -/
theorem claimF_not_rw (now : Int) (tok : Nat) (j : JobRecord) :
    readyWaiting now (claimF now tok j) = false := by
  unfold claimF
  split
  · simp [readyWaiting]
  · next h =>
      rw [Bool.eq_false_iff, Ne, readyWaiting_iff]
      exact h

/-- A claim on a store with no claimable job is a no-op. -/
theorem claimNext_eq_none (e : Engine) (tok : Nat)
    (h : e.jobs.filter (readyWaiting e.now) = []) : claimNext e tok = none := by
  unfold claimNext
  rw [h]
  rfl

/-- A failed claim means no job was claimable. -/
theorem filter_eq_nil_of_claimNext (e : Engine) (tok : Nat)
    (h : claimNext e tok = none) : e.jobs.filter (readyWaiting e.now) = [] := by
  unfold claimNext at h
  rcases hs : List.insertionSort JobOrder (e.jobs.filter (readyWaiting e.now)) with _ | ⟨j, rest⟩
  · have hp := List.perm_insertionSort JobOrder (e.jobs.filter (readyWaiting e.now))
    rw [hs] at hp
    exact List.eq_nil_of_length_eq_zero hp.length_eq.symm
  · rw [hs] at h
    cases h

/-- What a successful claim did: it picked a claimable record of the store
and applied the test-and-set to exactly that record. -/
theorem claimNext_some_spec (e : Engine) (tok : Nat) (e' : Engine) (j' : JobRecord)
    (h : claimNext e tok = some (e', j')) :
    ∃ j ∈ e.jobs, readyWaiting e.now j = true ∧ j' = claimF e.now tok j ∧
      e' = updateJob e j.id (claimF e.now tok) := by
  unfold claimNext at h
  rcases hs : List.insertionSort JobOrder (e.jobs.filter (readyWaiting e.now)) with _ | ⟨j, rest⟩
  · rw [hs] at h
    cases h
  · rw [hs] at h
    have hmem : j ∈ e.jobs.filter (readyWaiting e.now) := by
      have hp := List.perm_insertionSort JobOrder (e.jobs.filter (readyWaiting e.now))
      rw [hs] at hp
      exact hp.mem_iff.mp (List.mem_cons_self j rest)
    rcases List.mem_filter.mp hmem with ⟨hj, hrw⟩
    cases h
    exact ⟨j, hj, hrw, rfl, rfl⟩

/-- A per-job mutation targeting an id that no record carries changes
nothing. -/
theorem updF_map_nochange (i : Nat) (f : JobRecord → JobRecord)
    (l : List JobRecord) (h : ∀ y ∈ l, y.id ≠ i) : l.map (updF i f) = l := by
  induction l with
  | nil => rfl
  | cons x xs ih =>
    have hx : x.id ≠ i := h x (List.mem_cons_self x xs)
    rw [List.map_cons, ih (fun y hy => h y (List.mem_cons_of_mem x hy))]
    unfold updF
    rw [if_neg hx]

/-- An id-preserving per-job mutation leaves the id list of the store
unchanged. -/
theorem ids_map_updF (i : Nat) (f : JobRecord → JobRecord)
    (hid : ∀ x, (f x).id = x.id) (l : List JobRecord) :
    (l.map (updF i f)).map JobRecord.id = l.map JobRecord.id := by
  induction l with
  | nil => rfl
  | cons x xs ih =>
    rw [List.map_cons, List.map_cons, List.map_cons, ih]
    congr 1
    unfold updF
    split
    · exact hid x
    · rfl

/-- Mutating the single record with a given id removes exactly one entry
from any filter the mutation falsifies on it. -/
theorem filter_length_updF (p : JobRecord → Bool) (f : JobRecord → JobRecord)
    (l : List JobRecord) (j : JobRecord)
    (hnd : (l.map JobRecord.id).Nodup) (hmem : j ∈ l)
    (hpj : p j = true) (hpfj : p (f j) = false) :
    ((l.map (updF j.id f)).filter p).length + 1 = (l.filter p).length := by
  induction l with
  | nil => cases hmem
  | cons x xs ih =>
    rw [List.map_cons] at hnd
    rcases List.nodup_cons.mp hnd with ⟨hx_notin, hnd'⟩
    rcases List.mem_cons.mp hmem with heq | hjx
    · subst heq
      have hxs : ∀ y ∈ xs, y.id ≠ j.id := by
        intro y hy hyid
        exact hx_notin (List.mem_map.mpr ⟨y, hy, hyid⟩)
      rw [List.map_cons, updF_map_nochange j.id f xs hxs]
      rw [show updF j.id f j = f j from by simp [updF]]
      rw [List.filter_cons, List.filter_cons, if_neg (by simp [hpfj]), if_pos (by simp [hpj])]
      rw [List.length_cons]
    · have hx_ne : x.id ≠ j.id := by
        intro hxj
        exact hx_notin (hxj ▸ List.mem_map.mpr ⟨j, hjx, rfl⟩)
      rw [List.map_cons]
      rw [show updF j.id f x = x from by simp [updF, hx_ne]]
      rw [List.filter_cons, List.filter_cons]
      by_cases hpx : p x = true
      · rw [if_pos (by simp [hpx]), if_pos (by simp [hpx]), List.length_cons, List.length_cons]
        have := ih hnd' hjx
        omega
      · rw [if_neg (by simp [hpx]), if_neg (by simp [hpx])]
        exact ih hnd' hjx

/-- A successful claim reduces the number of claimable jobs by exactly
one. -/
theorem countRW_claim (e : Engine) (tok : Nat) (j : JobRecord)
    (hnd : IdsNodup e) (hmem : j ∈ e.jobs) (hrw : readyWaiting e.now j = true) :
    countRW (updateJob e j.id (claimF e.now tok)) + 1 = countRW e := by
  unfold countRW updateJob
  exact filter_length_updF (readyWaiting e.now) (claimF e.now tok) e.jobs j hnd hmem hrw
    (claimF_not_rw e.now tok j)

/-- Id-preserving mutations keep store ids duplicate-free. -/
theorem idsNodup_updateJob (e : Engine) (i : Nat) (f : JobRecord → JobRecord)
    (hid : ∀ x, (f x).id = x.id) (hnd : IdsNodup e) : IdsNodup (updateJob e i f) := by
  unfold IdsNodup updateJob at *
  rw [ids_map_updF i f hid]
  exact hnd

/-- Over any claim schedule the number of successful claims is the length
of the schedule capped by the number of claimable jobs. -/
theorem runClaims_length (toks : List Nat) :
    ∀ e : Engine, IdsNodup e →
      (runClaims e toks).2.length = min toks.length (countRW e) := by
  induction toks with
  | nil =>
    intro e _
    simp [runClaims]
  | cons tok rest ih =>
    intro e hnd
    simp only [runClaims]
    rcases h : claimNext e tok with _ | ⟨e', j'⟩
    · have h0 : countRW e = 0 := by
        unfold countRW
        rw [filter_eq_nil_of_claimNext e tok h]
        rfl
      rw [ih e hnd, h0]
      simp
    · rcases claimNext_some_spec e tok e' j' h with ⟨j, hj, hrw, hj', he'⟩
      have hnd' : IdsNodup e' := he' ▸ idsNodup_updateJob e j.id _ (fun x => claimF_id e.now tok x) hnd
      have hcount : countRW e' + 1 = countRW e := by
        rw [he']
        exact countRW_claim e tok j hnd hj hrw
      simp only [List.length_cons, ih e' hnd', List.length_cons]
      omega

/-- A claim step never makes a non-claimable id claimable. -/
theorem notRW_claimNext (e : Engine) (tok : Nat) (e' : Engine) (j' : JobRecord) (i : Nat)
    (h : claimNext e tok = some (e', j')) (hn : NotRW e i) : NotRW e' i := by
  rcases claimNext_some_spec e tok e' j' h with ⟨j, hj, hrw, hj', he'⟩
  subst he'
  intro x hx hxi
  rcases List.mem_map.mp hx with ⟨y, hy, rfl⟩
  by_cases hyid : y.id = j.id
  · rw [show updF j.id (claimF e.now tok) y = claimF e.now tok y from by simp [updF, hyid]]
    exact claimF_not_rw e.now tok y
  · rw [show updF j.id (claimF e.now tok) y = y from by simp [updF, hyid]] at hxi ⊢
    exact hn y hy hxi

/-- The record a claim just took is no longer claimable under its id. -/
theorem claimNext_makes_notRW (e : Engine) (tok : Nat) (e' : Engine) (j' : JobRecord)
    (h : claimNext e tok = some (e', j')) : NotRW e' j'.id := by
  rcases claimNext_some_spec e tok e' j' h with ⟨j, hj, hrw, hj', he'⟩
  subst he' hj'
  intro x hx hxi
  rcases List.mem_map.mp hx with ⟨y, hy, rfl⟩
  by_cases hyid : y.id = j.id
  · rw [show updF j.id (claimF e.now tok) y = claimF e.now tok y from by simp [updF, hyid]]
    exact claimF_not_rw e.now tok y
  · rw [show updF j.id (claimF e.now tok) y = y from by simp [updF, hyid]] at hxi ⊢
    rw [claimF_id] at hxi
    exact absurd hxi hyid

/-- An id that is not claimable is never claimed by any schedule. -/
theorem notRW_not_claimed (toks : List Nat) :
    ∀ (e : Engine) (i : Nat), NotRW e i → i ∉ (runClaims e toks).2 := by
  induction toks with
  | nil =>
    intro e i _
    simp [runClaims]
  | cons tok rest ih =>
    intro e i hn
    simp only [runClaims]
    rcases h : claimNext e tok with _ | ⟨e', j'⟩
    · exact ih e i hn
    · simp only [List.mem_cons, not_or]
      constructor
      · rcases claimNext_some_spec e tok e' j' h with ⟨j, hj, hrw, hj', he'⟩
        subst hj'
        rw [claimF_id]
        intro hij
        have hfalse := hn j hj hij.symm
        rw [hfalse] at hrw
        cases hrw
      · exact ih e' i (notRW_claimNext e tok e' j' i h hn)

/-- No schedule of claims against one store claims the same job twice. -/
theorem runClaims_nodup (toks : List Nat) :
    ∀ e : Engine, IdsNodup e → (runClaims e toks).2.Nodup := by
  induction toks with
  | nil =>
    intro e _
    simp [runClaims]
  | cons tok rest ih =>
    intro e hnd
    simp only [runClaims]
    rcases h : claimNext e tok with _ | ⟨e', j'⟩
    · exact ih e hnd
    · refine List.nodup_cons.mpr ⟨?_, ?_⟩
      · exact notRW_not_claimed rest e' j'.id (claimNext_makes_notRW e tok e' j' h)
      · rcases claimNext_some_spec e tok e' j' h with ⟨j, hj, hrw, hj', he'⟩
        refine ih e' ?_
        rw [he']
        exact idsNodup_updateJob e j.id _ (fun x => claimF_id e.now tok x) hnd

/- Helper lemmas about the automatic lifecycle. -/

/-- Scheduler promotion preserves the attempt invariant. -/
theorem attemptsInv_promoteF (now : Int) (j : JobRecord) (h : AttemptsInv j) :
    AttemptsInv (promoteF now j) := by
  rcases h with ⟨h1, h2⟩
  unfold promoteF
  split
  · next hg => exact ⟨h1, fun _ => h2 (by rw [hg.1]; intro hx; cases hx)⟩
  · exact ⟨h1, h2⟩

/-- The claim test-and-set preserves the attempt invariant. -/
theorem attemptsInv_claimF (now : Int) (tok : Nat) (j : JobRecord) (h : AttemptsInv j) :
    AttemptsInv (claimF now tok j) := by
  rcases h with ⟨h1, h2⟩
  unfold claimF
  split
  · next hg => exact ⟨h1, fun _ => h2 (by rw [hg.1]; intro hx; cases hx)⟩
  · exact ⟨h1, h2⟩

/-- The failure transition preserves the attempt invariant: a retry is
scheduled only while attempts remain, and a job whose attempts are
exhausted becomes failed with attemptsMade equal to at most maxAttempts. -/
theorem attemptsInv_failF (now : Int) (r : Bool) (j : JobRecord) (h : AttemptsInv j) :
    AttemptsInv (failF now r j) := by
  rcases h with ⟨h1, h2⟩
  unfold failF
  split
  · next hact =>
    have hlt : j.attemptsMade < j.maxAttempts := h2 (by rw [hact]; intro hx; cases hx)
    split
    · next hg =>
      refine ⟨?_, fun _ => hg.2⟩
      show j.attemptsMade + 1 ≤ j.maxAttempts
      omega
    · refine ⟨?_, fun hne => absurd rfl hne⟩
      show j.attemptsMade + 1 ≤ j.maxAttempts
      omega
  · exact ⟨h1, h2⟩

/-- Completion preserves the attempt invariant. -/
theorem attemptsInv_completeF (now : Int) (j : JobRecord) (h : AttemptsInv j) :
    AttemptsInv (completeF now j) := by
  rcases h with ⟨h1, h2⟩
  unfold completeF
  split
  · next hg => exact ⟨h1, fun _ => h2 (by rw [hg]; intro hx; cases hx)⟩
  · exact ⟨h1, h2⟩

/-- Stall reclassification preserves the attempt invariant. -/
theorem attemptsInv_stallF (s : Settings) (now : Int) (j : JobRecord) (h : AttemptsInv j) :
    AttemptsInv (stallF s now j) := by
  rcases h with ⟨h1, h2⟩
  unfold stallF
  split
  · next hg =>
    have hlt : j.attemptsMade < j.maxAttempts := h2 (by rw [hg.1]; intro hx; cases hx)
    split
    · refine ⟨?_, fun hne => absurd rfl hne⟩
      show j.attemptsMade ≤ j.maxAttempts
      omega
    · exact ⟨h1, fun _ => hlt⟩
  · exact ⟨h1, h2⟩

/-- Requeue of a stalled job preserves the attempt invariant. -/
theorem attemptsInv_requeueF (j : JobRecord) (h : AttemptsInv j) :
    AttemptsInv (requeueF j) := by
  rcases h with ⟨h1, h2⟩
  unfold requeueF
  split
  · next hg => exact ⟨h1, fun _ => h2 (by rw [hg]; intro hx; cases hx)⟩
  · exact ⟨h1, h2⟩

/-- Heartbeats preserve the attempt invariant. -/
theorem attemptsInv_heartbeatF (now : Int) (j : JobRecord) (h : AttemptsInv j) :
    AttemptsInv (heartbeatF now j) := by
  rcases h with ⟨h1, h2⟩
  unfold heartbeatF
  split
  · next hg => exact ⟨h1, fun _ => h2 (by rw [hg]; intro hx; cases hx)⟩
  · exact ⟨h1, h2⟩

/-- Per-job mutations that preserve the attempt invariant preserve the
store-wide invariant. -/
theorem engineInv_updateJob (e : Engine) (i : Nat) (f : JobRecord → JobRecord)
    (hf : ∀ j, AttemptsInv j → AttemptsInv (f j)) (h : EngineInv e) :
    EngineInv (updateJob e i f) := by
  intro x hx
  rcases List.mem_map.mp hx with ⟨y, hy, rfl⟩
  unfold updF
  split
  · exact hf y (h y hy)
  · exact h y hy

/-- An invalid submission returns the store unchanged and produces no
record. -/
theorem trySubmit_invalid (e : Engine) (ty pl : String) (o : SubmitOptions)
    (hv : o.delay < 0 ∨ o.attempts < 1) : trySubmit e ty pl o = (e, none) := by
  unfold trySubmit submit
  rw [if_pos hv]

/-- A valid submission appends exactly the created record. -/
theorem trySubmit_valid (e : Engine) (ty pl : String) (o : SubmitOptions)
    (hv : ¬(o.delay < 0 ∨ o.attempts < 1)) :
    trySubmit e ty pl o =
      ({ jobs := e.jobs ++ [mkJob e ty pl o], nextId := e.nextId + 1, now := e.now },
        some (mkJob e ty pl o)) := by
  unfold trySubmit submit
  rw [if_neg hv]

/-- The store shape after completing a found active job. -/
theorem completeE_found (e : Engine) (i : Nat) (j : JobRecord)
    (hf : e.jobs.find? (activeWith i) = some j) :
    completeE e i =
      match j.repeatEvery with
      | none => updateJob e i (completeF e.now)
      | some per =>
        { jobs := (updateJob e i (completeF e.now)).jobs ++ [sibling j per e.now e.nextId]
          nextId := e.nextId + 1
          now := e.now } := by
  unfold completeE
  rw [hf]

/-- A valid submission appends a record satisfying the attempt
invariant. -/
theorem engineInv_trySubmit (e : Engine) (ty pl : String) (o : SubmitOptions)
    (h : EngineInv e) : EngineInv (trySubmit e ty pl o).1 := by
  by_cases hv : o.delay < 0 ∨ o.attempts < 1
  · rw [trySubmit_invalid e ty pl o hv]
    exact h
  · rw [trySubmit_valid e ty pl o hv]
    intro x hx
    rcases List.mem_append.mp hx with hx | hx
    · exact h x hx
    · rcases List.mem_singleton.mp hx with rfl
      refine ⟨by simp [mkJob], fun _ => ?_⟩
      show 0 < o.attempts
      omega

/-- The dispatcher claim step preserves the store invariant. -/
theorem engineInv_claimE (e : Engine) (tok : Nat) (h : EngineInv e) :
    EngineInv (claimE e tok) := by
  unfold claimE
  rcases hc : claimNext e tok with _ | ⟨e', j'⟩
  · exact h
  · rcases claimNext_some_spec e tok e' j' hc with ⟨j, hj, hrw, hj', he'⟩
    rw [he']
    exact engineInv_updateJob e j.id _ (fun x hx => attemptsInv_claimF e.now tok x hx) h

/-- Completion, including the spawning of a recurrence sibling, preserves
the store invariant. -/
theorem engineInv_completeE (e : Engine) (i : Nat) (h : EngineInv e) :
    EngineInv (completeE e i) := by
  rcases hf : e.jobs.find? (activeWith i) with _ | j
  · unfold completeE
    rw [hf]
    exact h
  · have hjmem : j ∈ e.jobs := List.mem_of_find?_eq_some hf
    have hjp := List.find?_some hf
    have hjact : j.state = JState.active := by
      unfold activeWith at hjp
      simp at hjp
      exact hjp.2
    have hinv1 : EngineInv (updateJob e i (completeF e.now)) :=
      engineInv_updateJob e i _ (fun x hx => attemptsInv_completeF e.now x hx) h
    rw [completeE_found e i j hf]
    rcases hre : j.repeatEvery with _ | per
    · exact hinv1
    · show EngineInv
        { jobs := (updateJob e i (completeF e.now)).jobs ++ [sibling j per e.now e.nextId]
          nextId := e.nextId + 1
          now := e.now }
      intro x hx
      rcases List.mem_append.mp hx with hx | hx
      · exact hinv1 x hx
      · rcases List.mem_singleton.mp hx with rfl
        have hjlt : j.attemptsMade < j.maxAttempts :=
          (h j hjmem).2 (by rw [hjact]; intro hc; cases hc)
        refine ⟨by show (0:Nat) ≤ j.maxAttempts; omega, fun _ => ?_⟩
        show 0 < j.maxAttempts
        omega

/-- Every automatic lifecycle step preserves the store invariant. -/
theorem engineInv_step (s : Settings) (e e' : Engine) (hs : Step s e e')
    (h : EngineInv e) : EngineInv e' := by
  cases hs with
  | tick d => exact h
  | submit ty pl o => exact engineInv_trySubmit e ty pl o h
  | promote i => exact engineInv_updateJob e i _ (fun x hx => attemptsInv_promoteF e.now x hx) h
  | claim tok => exact engineInv_claimE e tok h
  | complete i => exact engineInv_completeE e i h
  | fail i r => exact engineInv_updateJob e i _ (fun x hx => attemptsInv_failF e.now r x hx) h
  | heartbeat i => exact engineInv_updateJob e i _ (fun x hx => attemptsInv_heartbeatF e.now x hx) h
  | stall i => exact engineInv_updateJob e i _ (fun x hx => attemptsInv_stallF s e.now x hx) h
  | requeue i => exact engineInv_updateJob e i _ (fun x hx => attemptsInv_requeueF x hx) h

/-- Every automatic per-job mutation leaves a failed record exactly as it
is: failed is terminal for the automatic lifecycle. -/
theorem stepF_fixes_failed (now : Int) (tok : Nat) (r : Bool) (s : Settings)
    (j : JobRecord) (h : j.state = JState.failed) :
    promoteF now j = j ∧ claimF now tok j = j ∧ completeF now j = j ∧
    failF now r j = j ∧ heartbeatF now j = j ∧ stallF s now j = j ∧
    requeueF j = j := by
  refine ⟨?_, ?_, ?_, ?_, ?_, ?_, ?_⟩ <;>
    simp [promoteF, claimF, completeF, failF, heartbeatF, stallF, requeueF, h]

/-- A per-job mutation that fixes failed records keeps them in the
store. -/
theorem failed_mem_updateJob (e : Engine) (i : Nat) (f : JobRecord → JobRecord)
    (hfix : ∀ x, x.state = JState.failed → f x = x)
    (j : JobRecord) (hj : j ∈ e.jobs) (hfail : j.state = JState.failed) :
    j ∈ (updateJob e i f).jobs := by
  have hupd : updF i f j = j := by
    unfold updF
    split
    · exact hfix j hfail
    · rfl
  exact List.mem_map.mpr ⟨j, hj, hupd⟩

/-- One automatic lifecycle step keeps every failed record, unchanged, in
the store. -/
theorem failed_mem_step (s : Settings) (e e' : Engine) (hs : Step s e e')
    (j : JobRecord) (hj : j ∈ e.jobs) (hfail : j.state = JState.failed) :
    j ∈ e'.jobs := by
  cases hs with
  | tick d => exact hj
  | submit ty pl o =>
    by_cases hv : o.delay < 0 ∨ o.attempts < 1
    · rw [trySubmit_invalid e ty pl o hv]
      exact hj
    · rw [trySubmit_valid e ty pl o hv]
      exact List.mem_append_left _ hj
  | promote i =>
    exact failed_mem_updateJob e i _
      (fun x hx => (stepF_fixes_failed e.now 0 false s x hx).1) j hj hfail
  | claim tok =>
    unfold claimE
    rcases hc : claimNext e tok with _ | ⟨e2, j'⟩
    · exact hj
    · rcases claimNext_some_spec e tok e2 j' hc with ⟨k, hk, hrw, hj', he2⟩
      rw [he2]
      exact failed_mem_updateJob e k.id _
        (fun x hx => (stepF_fixes_failed e.now tok false s x hx).2.1) j hj hfail
  | complete i =>
    rcases hf : e.jobs.find? (activeWith i) with _ | k
    · unfold completeE
      rw [hf]
      exact hj
    · rw [completeE_found e i k hf]
      rcases hre : k.repeatEvery with _ | per
      · exact failed_mem_updateJob e i _
          (fun x hx => (stepF_fixes_failed e.now 0 false s x hx).2.2.1) j hj hfail
      · show j ∈ (updateJob e i (completeF e.now)).jobs ++ [sibling k per e.now e.nextId]
        exact List.mem_append_left _ (failed_mem_updateJob e i _
          (fun x hx => (stepF_fixes_failed e.now 0 false s x hx).2.2.1) j hj hfail)
  | fail i r =>
    exact failed_mem_updateJob e i _
      (fun x hx => (stepF_fixes_failed e.now 0 r s x hx).2.2.2.1) j hj hfail
  | heartbeat i =>
    exact failed_mem_updateJob e i _
      (fun x hx => (stepF_fixes_failed e.now 0 false s x hx).2.2.2.2.1) j hj hfail
  | stall i =>
    exact failed_mem_updateJob e i _
      (fun x hx => (stepF_fixes_failed e.now 0 false s x hx).2.2.2.2.2.1) j hj hfail
  | requeue i =>
    exact failed_mem_updateJob e i _
      (fun x hx => (stepF_fixes_failed e.now 0 false s x hx).2.2.2.2.2.2) j hj hfail

/-- The store invariant holds in every store reachable through the
automatic lifecycle. -/
theorem engineInv_reach (s : Settings) (e e' : Engine)
    (h : Relation.ReflTransGen (Step s) e e') (hinv : EngineInv e) :
    EngineInv e' := by
  induction h with
  | refl => exact hinv
  | tail hab hbc ih => exact engineInv_step s _ _ hbc ih

/-- A failed record persists, unchanged, in every store reachable through
the automatic lifecycle: no retry is ever scheduled for it. -/
theorem failed_mem_reach (s : Settings) (e e' : Engine)
    (h : Relation.ReflTransGen (Step s) e e') (j : JobRecord)
    (hj : j ∈ e.jobs) (hfail : j.state = JState.failed) : j ∈ e'.jobs := by
  induction h with
  | refl => exact hj
  | tail hab hbc ih => exact failed_mem_step s _ _ hbc j ih hfail

/-- Looking up an id after mutating the record that carries it finds the
mutated record. -/
theorem find?_updF (l : List JobRecord) (j : JobRecord) (f : JobRecord → JobRecord)
    (hid : ∀ x, (f x).id = x.id) (hnd : (l.map JobRecord.id).Nodup) (hmem : j ∈ l) :
    (l.map (updF j.id f)).find? (fun x => decide (x.id = j.id)) = some (f j) := by
  induction l with
  | nil => cases hmem
  | cons x xs ih =>
    rw [List.map_cons] at hnd
    rcases List.nodup_cons.mp hnd with ⟨hx_notin, hnd'⟩
    rcases List.mem_cons.mp hmem with heq | hjx
    · subst heq
      rw [List.map_cons]
      rw [show updF j.id f j = f j from by simp [updF]]
      rw [List.find?_cons_of_pos _ (by simp [hid j])]
    · have hx_ne : x.id ≠ j.id := fun hxj =>
        hx_notin (hxj ▸ List.mem_map.mpr ⟨j, hjx, rfl⟩)
      rw [List.map_cons]
      rw [show updF j.id f x = x from by simp [updF, hx_ne]]
      rw [List.find?_cons_of_neg _ (by simp [hx_ne])]
      exact ih hnd' hjx

/- The claims. -/

/-- C1: the waiting→active transition is an atomic test-and-set on the
shared store.  Over any schedule of claim attempts — any interleaving of
any number of dispatcher instances, each schedule entry being the acting
instance token — no job id is ever claimed twice, and the number of
successful claims equals the schedule length capped by the number of
claimable jobs; in particular a store of 100 claimable jobs yields exactly
100 claims once at least 100 attempts are made. -/
theorem claim_atomicity (e : Engine) (toks : List Nat) (hnd : IdsNodup e) :
    (runClaims e toks).2.Nodup ∧
    (runClaims e toks).2.length = min toks.length (countRW e) ∧
    (countRW e = 100 → 100 ≤ toks.length → (runClaims e toks).2.length = 100) := by
  refine ⟨runClaims_nodup toks e hnd, runClaims_length toks e hnd, fun h100 hlen => ?_⟩
  rw [runClaims_length toks e hnd, h100]
  omega

theorem claim_atomicity_witness :
    IdsNodup (mkEngine 100) ∧
    ((runClaims (mkEngine 100) ((List.range 120).map (fun k => k % 2))).2.Nodup ∧
     (runClaims (mkEngine 100) ((List.range 120).map (fun k => k % 2))).2.length =
       min ((List.range 120).map (fun k => k % 2)).length (countRW (mkEngine 100)) ∧
     (countRW (mkEngine 100) = 100 → 100 ≤ ((List.range 120).map (fun k => k % 2)).length →
       (runClaims (mkEngine 100) ((List.range 120).map (fun k => k % 2))).2.length = 100)) :=
  ⟨by decide, claim_atomicity (mkEngine 100) ((List.range 120).map (fun k => k % 2)) (by decide)⟩

/-- C2: in every store reachable through the automatic lifecycle from a
store satisfying the attempt invariant, attemptsMade never exceeds
maxAttempts; a failed record persists unchanged forever (no retry is ever
scheduled for it by the scheduler or dispatcher); and a retryable failure
of an attempt that exhausts maxAttempts puts the job in the failed
state. -/
theorem attempts_bounded_failed_permanent (s : Settings) (e e' : Engine)
    (hreach : Relation.ReflTransGen (Step s) e e') (hinv : EngineInv e) :
    (∀ j ∈ e'.jobs, j.attemptsMade ≤ j.maxAttempts) ∧
    (∀ j ∈ e.jobs, j.state = JState.failed → j ∈ e'.jobs) ∧
    (∀ (j : JobRecord) (now : Int), j.state = JState.active →
      j.maxAttempts ≤ j.attemptsMade + 1 →
      (failF now true j).state = JState.failed) := by
  refine ⟨fun j hj => (engineInv_reach s e e' hreach hinv j hj).1,
          fun j hj hf => failed_mem_reach s e e' hreach j hj hf,
          fun j now hact hge => ?_⟩
  unfold failF
  rw [if_pos hact, if_neg (by rintro ⟨_, hlt⟩; omega)]

theorem attempts_bounded_failed_permanent_witness :
    EngineInv (mkEngine 3) ∧
    ((∀ j ∈ (tickE (mkEngine 3) 1000).jobs, j.attemptsMade ≤ j.maxAttempts) ∧
     (∀ j ∈ (mkEngine 3).jobs, j.state = JState.failed → j ∈ (tickE (mkEngine 3) 1000).jobs) ∧
     (∀ (j : JobRecord) (now : Int), j.state = JState.active →
       j.maxAttempts ≤ j.attemptsMade + 1 →
       (failF now true j).state = JState.failed)) :=
  ⟨by decide,
   attempts_bounded_failed_permanent { stalledInterval := 30000, maxStalledCount := 3 }
     (mkEngine 3) (tickE (mkEngine 3) 1000)
     (Relation.ReflTransGen.single (Step.tick (mkEngine 3) 1000)) (by decide)⟩

/-- C3: the retry policy is the pure function nextAttempt; for the
exponential policy with base delay 2000 configured by the repository the
delay after attempt a is 2000 * 2 ^ a — 2000 ms, 4000 ms, 8000 ms after
attempts 0, 1, 2 — and a retryable failure reschedules the job with
readyAt exactly that delay past the failure time. -/
theorem exponential_backoff_delays :
    (∀ a : Nat, nextAttempt a expPolicy2000 = 2000 * 2 ^ a) ∧
    nextAttempt 0 expPolicy2000 = 2000 ∧
    nextAttempt 1 expPolicy2000 = 4000 ∧
    nextAttempt 2 expPolicy2000 = 8000 ∧
    (∀ (j : JobRecord) (now : Int), j.state = JState.active →
      j.backoff = expPolicy2000 → j.attemptsMade + 1 < j.maxAttempts →
      (failF now true j).readyAt = now + 2000 * 2 ^ j.attemptsMade) := by
  refine ⟨fun a => rfl, by decide, by decide, by decide, fun j now hact hbk hlt => ?_⟩
  unfold failF
  rw [if_pos hact, if_pos ⟨rfl, hlt⟩]
  show now + nextAttempt j.attemptsMade j.backoff = now + 2000 * 2 ^ j.attemptsMade
  rw [hbk]
  rfl

theorem exponential_backoff_delays_witness :
    (claimF 0 7 (mkWaitingJob 0)).state = JState.active ∧
    (claimF 0 7 (mkWaitingJob 0)).backoff = expPolicy2000 ∧
    (claimF 0 7 (mkWaitingJob 0)).attemptsMade + 1 < (claimF 0 7 (mkWaitingJob 0)).maxAttempts ∧
    (failF 5 true (claimF 0 7 (mkWaitingJob 0))).readyAt =
      5 + 2000 * 2 ^ (claimF 0 7 (mkWaitingJob 0)).attemptsMade :=
  ⟨by decide, by decide, by decide,
   exponential_backoff_delays.2.2.2.2 (claimF 0 7 (mkWaitingJob 0)) 5
     (by decide) (by decide) (by decide)⟩

/-- C4: a submission with a negative delay or with maxAttempts below one
fails synchronously with a ValidationError; the store is returned
unchanged, no record is created, and every state listing — waiting and
delayed included — is exactly what it was before the call. -/
theorem submit_validation (e : Engine) (ty pl : String) (o : SubmitOptions)
    (hv : o.delay < 0 ∨ o.attempts < 1) :
    submit e ty pl o = Except.error SubmitError.validationError ∧
    trySubmit e ty pl o = (e, none) ∧
    (∀ st : JState, listByState (trySubmit e ty pl o).1 st = listByState e st) := by
  refine ⟨?_, trySubmit_invalid e ty pl o hv, fun st => ?_⟩
  · unfold submit
    rw [if_pos hv]
  · rw [trySubmit_invalid e ty pl o hv]

theorem submit_validation_witness :
    ((-1 : Int) < 0 ∨ (3 : Nat) < 1) ∧
    (submit (mkEngine 1) "sendEmail" "user@example.com"
        { delay := -1, attempts := 3, backoff := expPolicy2000, priority := 1, repeatEvery := none } =
      Except.error SubmitError.validationError ∧
     trySubmit (mkEngine 1) "sendEmail" "user@example.com"
        { delay := -1, attempts := 3, backoff := expPolicy2000, priority := 1, repeatEvery := none } =
      (mkEngine 1, none) ∧
     (∀ st : JState,
       listByState (trySubmit (mkEngine 1) "sendEmail" "user@example.com"
         { delay := -1, attempts := 3, backoff := expPolicy2000, priority := 1, repeatEvery := none }).1 st =
       listByState (mkEngine 1) st)) :=
  ⟨by decide,
   submit_validation (mkEngine 1) "sendEmail" "user@example.com"
     { delay := -1, attempts := 3, backoff := expPolicy2000, priority := 1, repeatEvery := none }
     (by decide)⟩

/-- C5: among ready jobs a higher priority value dequeues first: with jobs
A (priority 1) and B (priority 10) in the store, both waiting with the
same readyAt, the dispatcher claims B, the waiting listing is [B, A], and
every listByState result is sorted by priority desc, readyAt asc, id
asc. -/
theorem priority_ordering (e : Engine) (a b : JobRecord) (tok : Nat)
    (hjobs : e.jobs = [a, b] ∨ e.jobs = [b, a])
    (hpa : a.priority = 1) (hpb : b.priority = 10)
    (hsa : a.state = JState.waiting) (hsb : b.state = JState.waiting)
    (hra : a.readyAt ≤ e.now) (hrb : b.readyAt ≤ e.now) :
    claimNext e tok = some (updateJob e b.id (claimF e.now tok), claimF e.now tok b) ∧
    listByState e JState.waiting = [b, a] ∧
    (∀ (e0 : Engine) (st : JState), List.Sorted JobOrder (listByState e0 st)) := by
  have hfa : readyWaiting e.now a = true := by
    rw [readyWaiting_iff]
    exact ⟨hsa, hra⟩
  have hfb : readyWaiting e.now b = true := by
    rw [readyWaiting_iff]
    exact ⟨hsb, hrb⟩
  have hJOab : ¬ JobOrder a b := by
    intro h
    unfold JobOrder at h
    rw [hpa, hpb] at h
    rcases h with h | ⟨h, _⟩ <;> omega
  have hJOba : JobOrder b a := by
    unfold JobOrder
    left
    rw [hpa, hpb]
    omega
  have hsort1 : List.insertionSort JobOrder [a, b] = [b, a] := by
    show List.orderedInsert JobOrder a [b] = [b, a]
    unfold List.orderedInsert
    rw [if_neg hJOab]
    rfl
  have hsort2 : List.insertionSort JobOrder [b, a] = [b, a] := by
    show List.orderedInsert JobOrder b [a] = [b, a]
    unfold List.orderedInsert
    rw [if_pos hJOba]
  rcases hjobs with hj | hj
  · have hfilter : e.jobs.filter (readyWaiting e.now) = [a, b] := by
      rw [hj]
      simp [List.filter_cons, hfa, hfb]
    have hfilterS : e.jobs.filter (fun j => decide (j.state = JState.waiting)) = [a, b] := by
      rw [hj]
      simp [List.filter_cons, hsa, hsb]
    refine ⟨?_, ?_, fun e0 st => List.sorted_insertionSort JobOrder _⟩
    · unfold claimNext
      rw [hfilter, hsort1]
    · unfold listByState
      rw [hfilterS, hsort1]
  · have hfilter : e.jobs.filter (readyWaiting e.now) = [b, a] := by
      rw [hj]
      simp [List.filter_cons, hfa, hfb]
    have hfilterS : e.jobs.filter (fun j => decide (j.state = JState.waiting)) = [b, a] := by
      rw [hj]
      simp [List.filter_cons, hsa, hsb]
    refine ⟨?_, ?_, fun e0 st => List.sorted_insertionSort JobOrder _⟩
    · unfold claimNext
      rw [hfilter, hsort2]
    · unfold listByState
      rw [hfilterS, hsort2]

theorem priority_ordering_witness :
    claimNext { jobs := [mkWaitingJob 0, { mkWaitingJob 1 with priority := 10 }], nextId := 2, now := 0 } 0 =
      some (updateJob { jobs := [mkWaitingJob 0, { mkWaitingJob 1 with priority := 10 }], nextId := 2, now := 0 }
              ({ mkWaitingJob 1 with priority := 10 } : JobRecord).id (claimF 0 0),
            claimF 0 0 { mkWaitingJob 1 with priority := 10 }) ∧
    listByState { jobs := [mkWaitingJob 0, { mkWaitingJob 1 with priority := 10 }], nextId := 2, now := 0 }
      JState.waiting = [{ mkWaitingJob 1 with priority := 10 }, mkWaitingJob 0] ∧
    (∀ (e0 : Engine) (st : JState), List.Sorted JobOrder (listByState e0 st)) :=
  priority_ordering
    { jobs := [mkWaitingJob 0, { mkWaitingJob 1 with priority := 10 }], nextId := 2, now := 0 }
    (mkWaitingJob 0) { mkWaitingJob 1 with priority := 10 } 0
    (Or.inl rfl) (by decide) (by decide) (by decide) (by decide) (by decide) (by decide)

/-- C6: an active job whose worker has sent no liveness signal for
stalledInterval is reclassified by the stall check: while fewer than
maxStalledCount stalls have accumulated it is observed stalled with its
stall count incremented and then requeued to waiting; the stall that
reaches maxStalledCount forces the failed state instead, and a failed
record persists unchanged through the whole automatic lifecycle and can
never be claimed again. -/
theorem stall_recovery (s : Settings) (j : JobRecord) (now : Int)
    (hact : j.state = JState.active) (hover : j.lastBeat + s.stalledInterval ≤ now) :
    (j.stallCount + 1 < s.maxStalledCount →
      (stallF s now j).state = JState.stalled ∧
      (stallF s now j).stallCount = j.stallCount + 1 ∧
      (requeueF (stallF s now j)).state = JState.waiting ∧
      (requeueF (stallF s now j)).stallCount = j.stallCount + 1) ∧
    (s.maxStalledCount ≤ j.stallCount + 1 →
      (stallF s now j).state = JState.failed) ∧
    (∀ (e e' : Engine), Relation.ReflTransGen (Step s) e e' →
      ∀ k ∈ e.jobs, k.state = JState.failed → k ∈ e'.jobs) ∧
    (∀ (now2 : Int) (tok : Nat) (k : JobRecord), k.state = JState.failed →
      claimF now2 tok k = k) := by
  refine ⟨fun hlt => ?_, fun hge => ?_,
          fun e e' hre k hk hf => failed_mem_reach s e e' hre k hk hf,
          fun now2 tok k hf => (stepF_fixes_failed now2 tok false s k hf).2.1⟩
  · have hs1 : stallF s now j =
        { j with state := JState.stalled, stallCount := j.stallCount + 1, owner := none } := by
      unfold stallF
      rw [if_pos ⟨hact, hover⟩, if_neg (by omega)]
    rw [hs1]
    exact ⟨rfl, rfl, rfl, rfl⟩
  · unfold stallF
    rw [if_pos ⟨hact, hover⟩, if_pos hge]

theorem stall_recovery_witness :
    (claimF 0 7 (mkWaitingJob 0)).state = JState.active ∧
    (claimF 0 7 (mkWaitingJob 0)).lastBeat + (30000 : Int) ≤ 30000 ∧
    (((claimF 0 7 (mkWaitingJob 0)).stallCount + 1 < 3 →
      (stallF { stalledInterval := 30000, maxStalledCount := 3 } 30000 (claimF 0 7 (mkWaitingJob 0))).state = JState.stalled ∧
      (stallF { stalledInterval := 30000, maxStalledCount := 3 } 30000 (claimF 0 7 (mkWaitingJob 0))).stallCount = (claimF 0 7 (mkWaitingJob 0)).stallCount + 1 ∧
      (requeueF (stallF { stalledInterval := 30000, maxStalledCount := 3 } 30000 (claimF 0 7 (mkWaitingJob 0)))).state = JState.waiting ∧
      (requeueF (stallF { stalledInterval := 30000, maxStalledCount := 3 } 30000 (claimF 0 7 (mkWaitingJob 0)))).stallCount = (claimF 0 7 (mkWaitingJob 0)).stallCount + 1) ∧
     ((3 : Nat) ≤ (claimF 0 7 (mkWaitingJob 0)).stallCount + 1 →
      (stallF { stalledInterval := 30000, maxStalledCount := 3 } 30000 (claimF 0 7 (mkWaitingJob 0))).state = JState.failed) ∧
     (∀ (e e' : Engine),
       Relation.ReflTransGen (Step { stalledInterval := 30000, maxStalledCount := 3 }) e e' →
       ∀ k ∈ e.jobs, k.state = JState.failed → k ∈ e'.jobs) ∧
     (∀ (now2 : Int) (tok : Nat) (k : JobRecord), k.state = JState.failed →
       claimF now2 tok k = k)) :=
  ⟨by decide, by decide,
   stall_recovery { stalledInterval := 30000, maxStalledCount := 3 }
     (claimF 0 7 (mkWaitingJob 0)) 30000 (by decide) (by decide)⟩

/-- C7: when an occurrence of a recurring job completes, exactly one
sibling record is spawned: it carries the fresh id nextId (an id no
existing record carries), is delayed until one period after completion,
and the completed occurrence keeps its own record in the completed state —
it is never mutated into the next occurrence.  Deterministically running
the engine for 5 simulated seconds on a job repeating every second yields
5 completed occurrences, within the specified 4 to 6 band. -/
theorem repeat_spawns_sibling (e : Engine) (i : Nat) (j : JobRecord) (per : Int)
    (hwf : ∀ k ∈ e.jobs, k.id < e.nextId)
    (hf : e.jobs.find? (activeWith i) = some j)
    (hre : j.repeatEvery = some per) :
    (sibling j per e.now e.nextId ∈ (completeE e i).jobs ∧
     (sibling j per e.now e.nextId).id = e.nextId ∧
     (sibling j per e.now e.nextId).state = JState.delayed ∧
     (sibling j per e.now e.nextId).readyAt = e.now + per ∧
     (∀ k ∈ e.jobs, k.id ≠ e.nextId) ∧
     completeF e.now j ∈ (completeE e i).jobs ∧
     (completeF e.now j).id = j.id ∧
     (completeF e.now j).state = JState.completed ∧
     (completeE e i).jobs.length = e.jobs.length + 1) ∧
    (countCompleted (simRun 5) = 5 ∧
     4 ≤ countCompleted (simRun 5) ∧ countCompleted (simRun 5) ≤ 6) := by
  have hji : j.id = i ∧ j.state = JState.active := by
    have hp := List.find?_some hf
    unfold activeWith at hp
    simpa using hp
  have hjmem : j ∈ e.jobs := List.mem_of_find?_eq_some hf
  have hcE : completeE e i =
      { jobs := (updateJob e i (completeF e.now)).jobs ++ [sibling j per e.now e.nextId]
        nextId := e.nextId + 1
        now := e.now } := by
    rw [completeE_found e i j hf, hre]
  refine ⟨⟨?_, rfl, rfl, rfl, fun k hk => by have := hwf k hk; omega, ?_, ?_, ?_, ?_⟩,
          by decide, by decide, by decide⟩
  · rw [hcE]
    exact List.mem_append_right _ (List.mem_singleton.mpr rfl)
  · rw [hcE]
    refine List.mem_append_left _ ?_
    exact List.mem_map.mpr ⟨j, hjmem, by simp [updF, hji.1]⟩
  · unfold completeF
    split <;> rfl
  · unfold completeF
    rw [if_pos hji.2]
  · rw [hcE]
    simp [updateJob]

theorem repeat_spawns_sibling_witness :
    (∀ k ∈ ({ jobs := [claimF 0 0 { mkWaitingJob 0 with repeatEvery := some 1000 }], nextId := 1, now := 0 } : Engine).jobs,
       k.id < 1) ∧
    (sibling (claimF 0 0 { mkWaitingJob 0 with repeatEvery := some 1000 }) 1000 0 1 ∈
       (completeE { jobs := [claimF 0 0 { mkWaitingJob 0 with repeatEvery := some 1000 }], nextId := 1, now := 0 } 0).jobs ∧
     (sibling (claimF 0 0 { mkWaitingJob 0 with repeatEvery := some 1000 }) 1000 0 1).id = 1 ∧
     (sibling (claimF 0 0 { mkWaitingJob 0 with repeatEvery := some 1000 }) 1000 0 1).state = JState.delayed ∧
     (sibling (claimF 0 0 { mkWaitingJob 0 with repeatEvery := some 1000 }) 1000 0 1).readyAt = 0 + 1000 ∧
     (∀ k ∈ ({ jobs := [claimF 0 0 { mkWaitingJob 0 with repeatEvery := some 1000 }], nextId := 1, now := 0 } : Engine).jobs,
        k.id ≠ 1) ∧
     completeF 0 (claimF 0 0 { mkWaitingJob 0 with repeatEvery := some 1000 }) ∈
       (completeE { jobs := [claimF 0 0 { mkWaitingJob 0 with repeatEvery := some 1000 }], nextId := 1, now := 0 } 0).jobs ∧
     (completeF 0 (claimF 0 0 { mkWaitingJob 0 with repeatEvery := some 1000 })).id =
       (claimF 0 0 { mkWaitingJob 0 with repeatEvery := some 1000 }).id ∧
     (completeF 0 (claimF 0 0 { mkWaitingJob 0 with repeatEvery := some 1000 })).state = JState.completed ∧
     (completeE { jobs := [claimF 0 0 { mkWaitingJob 0 with repeatEvery := some 1000 }], nextId := 1, now := 0 } 0).jobs.length =
       ({ jobs := [claimF 0 0 { mkWaitingJob 0 with repeatEvery := some 1000 }], nextId := 1, now := 0 } : Engine).jobs.length + 1) ∧
    (countCompleted (simRun 5) = 5 ∧
     4 ≤ countCompleted (simRun 5) ∧ countCompleted (simRun 5) ≤ 6) :=
  ⟨by decide,
   repeat_spawns_sibling
     { jobs := [claimF 0 0 { mkWaitingJob 0 with repeatEvery := some 1000 }], nextId := 1, now := 0 }
     0 (claimF 0 0 { mkWaitingJob 0 with repeatEvery := some 1000 }) 1000
     (by decide) (by decide) (by decide)⟩

/-- C8: the producer retry operation on a failed job returns it to the
waiting state with its attempt accounting reset to zero, and a getById
lookup observes exactly that: the record under the same id, waiting, with
zero attempts made. -/
theorem retry_failed_to_waiting (e : Engine) (j : JobRecord)
    (hnd : IdsNodup e) (hmem : j ∈ e.jobs) (hf : j.state = JState.failed) :
    getById (retry e j.id) j.id =
      some { j with state := JState.waiting, attemptsMade := 0 } ∧
    (∀ jr : JobRecord, getById (retry e j.id) j.id = some jr →
      jr.state = JState.waiting ∧ jr.attemptsMade = 0 ∧ jr.id = j.id) := by
  have hg : getById (retry e j.id) j.id = some (retryF j) := by
    unfold getById retry updateJob
    exact find?_updF e.jobs j retryF (fun x => by unfold retryF; split <;> rfl) hnd hmem
  have hrj : retryF j = { j with state := JState.waiting, attemptsMade := 0 } := by
    unfold retryF
    rw [if_pos hf]
  refine ⟨by rw [hg, hrj], fun jr hjr => ?_⟩
  rw [hg, hrj] at hjr
  cases hjr
  exact ⟨rfl, rfl, rfl⟩

theorem retry_failed_to_waiting_witness :
    IdsNodup { jobs := [{ mkWaitingJob 0 with state := JState.failed, attemptsMade := 3 }], nextId := 1, now := 0 } ∧
    ({ mkWaitingJob 0 with state := JState.failed, attemptsMade := 3 } : JobRecord) ∈
      ({ jobs := [{ mkWaitingJob 0 with state := JState.failed, attemptsMade := 3 }], nextId := 1, now := 0 } : Engine).jobs ∧
    (getById (retry { jobs := [{ mkWaitingJob 0 with state := JState.failed, attemptsMade := 3 }], nextId := 1, now := 0 }
        ({ mkWaitingJob 0 with state := JState.failed, attemptsMade := 3 } : JobRecord).id)
        ({ mkWaitingJob 0 with state := JState.failed, attemptsMade := 3 } : JobRecord).id =
      some { { mkWaitingJob 0 with state := JState.failed, attemptsMade := 3 } with
               state := JState.waiting, attemptsMade := 0 } ∧
     (∀ jr : JobRecord,
       getById (retry { jobs := [{ mkWaitingJob 0 with state := JState.failed, attemptsMade := 3 }], nextId := 1, now := 0 }
           ({ mkWaitingJob 0 with state := JState.failed, attemptsMade := 3 } : JobRecord).id)
           ({ mkWaitingJob 0 with state := JState.failed, attemptsMade := 3 } : JobRecord).id = some jr →
       jr.state = JState.waiting ∧ jr.attemptsMade = 0 ∧
       jr.id = ({ mkWaitingJob 0 with state := JState.failed, attemptsMade := 3 } : JobRecord).id)) :=
  ⟨by decide, by decide,
   retry_failed_to_waiting
     { jobs := [{ mkWaitingJob 0 with state := JState.failed, attemptsMade := 3 }], nextId := 1, now := 0 }
     { mkWaitingJob 0 with state := JState.failed, attemptsMade := 3 }
     (by decide) (by decide) (by decide)⟩

/-- C9: scheduleEmailAt computes delay as scheduleTime minus the current
time; whenever that delay is not positive it fails with the error message
Schedule time must be in the future and the queue is unchanged, and for a
strictly future time it enqueues through addEmailJob exactly one job whose
delay option equals scheduleTime minus now. -/
theorem scheduleEmailAt_future_guard (q : List EmailJobAdd) (toAddr : String)
    (now t : Int) :
    (t - now ≤ 0 →
      scheduleEmailAt q toAddr now t =
        (q, Except.error "Schedule time must be in the future")) ∧
    (0 < t - now →
      (scheduleEmailAt q toAddr now t).1 = q ++ [(addEmailJob q toAddr (t - now) none).2] ∧
      (scheduleEmailAt q toAddr now t).2 = Except.ok (addEmailJob q toAddr (t - now) none).2 ∧
      (addEmailJob q toAddr (t - now) none).2.delay = t - now) := by
  constructor
  · intro h
    unfold scheduleEmailAt
    rw [if_pos h]
  · intro h
    unfold scheduleEmailAt
    rw [if_neg (by omega)]
    exact ⟨rfl, rfl, rfl⟩

theorem scheduleEmailAt_future_guard_witness :
    (scheduleEmailAt [] "user@example.com" 100 100 =
      ([], Except.error "Schedule time must be in the future")) ∧
    ((scheduleEmailAt [] "user@example.com" 100 250).1 =
       [] ++ [(addEmailJob [] "user@example.com" (250 - 100) none).2] ∧
     (scheduleEmailAt [] "user@example.com" 100 250).2 =
       Except.ok (addEmailJob [] "user@example.com" (250 - 100) none).2 ∧
     (addEmailJob [] "user@example.com" (250 - 100) none).2.delay = 250 - 100) :=
  ⟨(scheduleEmailAt_future_guard [] "user@example.com" 100 100).1 (by decide),
   (scheduleEmailAt_future_guard [] "user@example.com" 100 250).2 (by decide)⟩

/-- C10: the basic worker processor does not reject unknown job names:
when the simulated random failure does not fire, a job whose name is not
sendEmail falls through the default branch and returns the same success
result shape — sentAt, the recipient, and a message id — as a known
job. -/
theorem processEmailJob_unknown_type (j : BasicJob) (sentAt messageId : String)
    (h : j.name ≠ "sendEmail") :
    processEmailJob j false sentAt messageId =
      ProcOutcome.ok ("Unknown job type processed: " ++ j.name) sentAt j.toAddr messageId := by
  unfold processEmailJob
  rw [if_neg (by simp), if_neg h]

theorem processEmailJob_unknown_type_witness :
    processEmailJob
        { name := "resizeImage", toAddr := "user@example.com", urgent := false,
          attemptsMade := 0, attemptsOpt := 3 } false "2025-01-01T00:00:00Z" "msg_1" =
      ProcOutcome.ok ("Unknown job type processed: " ++ "resizeImage") "2025-01-01T00:00:00Z"
        "user@example.com" "msg_1" :=
  processEmailJob_unknown_type
    { name := "resizeImage", toAddr := "user@example.com", urgent := false,
      attemptsMade := 0, attemptsOpt := 3 } "2025-01-01T00:00:00Z" "msg_1" (by decide)
